import Mathlib

/-!
# SubscriptionList (wso2.discovery.subscription)

A shallow embedding of `subscription_list.pb.go`: the `SubscriptionList`
message with its methods, the embedded raw file descriptor, and the
registration code (`rawDescGZIP`, `init`), followed by theorems about them.

Conventions of the embedding

* a Go pointer `*T` is an `Option T`: `none` is the nil pointer;
* a Go slice is a `Slice`: the nil slice is kept apart from an empty,
  non-nil slice, because Go code can tell them apart (`s == nil`);
* bytes are natural numbers below 256;
* package-level variables are the fields of `Globals`, and a function that
  reads or writes them takes and returns a `Globals`;
* calls into collaborators that live outside this file (the protobuf runtime,
  the init function of `subscription.proto`) are recorded, in order, in
  `Globals.trace`; what the runtime computes is a field of `Runtime`.
-/

namespace subscription

/-! ## Go values -/

/-- A Go slice value: the nil slice, or a slice over some elements. -/
inductive Slice (α : Type) where
  | nil : Slice α
  | mk (elems : List α) : Slice α
  deriving DecidableEq, Repr

namespace Slice

/-- Elements of a slice in order; the nil slice has none. -/
def toList {α : Type} : Slice α → List α
  | nil => []
  | mk l => l

/-- Go's `len(s)`. -/
def len {α : Type} (s : Slice α) : Nat := s.toList.length

/-- Go's `s == nil`. -/
def isNil {α : Type} : Slice α → Bool
  | nil => true
  | mk _ => false

end Slice

/-- A run-time panic of the Go program. -/
inductive Panic where
  | nilPointerDereference
  deriving DecidableEq, Repr

/-- Reference to an entry of the package's message-info table:
`&file_wso2_discovery_subscription_subscription_list_proto_msgTypes[i]`. -/
structure MessageInfoRef where
  index : Nat
  deriving DecidableEq, Repr

/-- The runtime's `protoimpl.MessageState`: an atomically stored pointer to a
message info, nil in the zero value. -/
structure MessageState where
  atomicMessageInfo : Option MessageInfoRef
  deriving DecidableEq, Repr

/-- `ms.StoreMessageInfo(mi)`. -/
def MessageState.StoreMessageInfo (_ms : MessageState) (mi : MessageInfoRef) : MessageState :=
  { atomicMessageInfo := some mi }

/-! ## The message type (source lines 23-69) -/

/-- The struct `SubscriptionList`; `Sub` is the struct `Subscription`, which
is declared in another file of the package. `sizeCache` is an `int32`,
`unknownFields` a `[]byte`, `List` a `[]*Subscription`. -/
structure SubscriptionList (Sub : Type) where
  state : MessageState
  sizeCache : Int
  unknownFields : Slice Nat
  List : Slice (Option Sub)
  deriving DecidableEq, Repr

/-- The composite literal `SubscriptionList{}`: the zero value. -/
def SubscriptionList.zero (Sub : Type) : SubscriptionList Sub :=
  { state := { atomicMessageInfo := none }
    sizeCache := 0
    unknownFields := Slice.nil
    List := Slice.nil }

/-- The struct tag of the Go field `List`, key `protobuf`. -/
def SubscriptionList.List_protobufTag : String := "bytes,2,rep,name=list,proto3"

/-- Method `Reset` on a pointer receiver `x`, with the runtime constant
`protoimpl.UnsafeEnabled` as a parameter. The result is the value `x` points
to after the call; the assignment `*x = SubscriptionList{}` panics on a nil
receiver. `MessageStateOf(Pointer(x))` is the `state` field of `*x`. -/
def Reset {Sub : Type} (UnsafeEnabled : Bool) (x : Option (SubscriptionList Sub)) :
    Except Panic (SubscriptionList Sub) :=
  match x with
  | none => Except.error Panic.nilPointerDereference
  | some _ =>
    let x1 := SubscriptionList.zero Sub
    if UnsafeEnabled then
      let mi : MessageInfoRef := { index := 0 }
      let ms := x1.state
      Except.ok { x1 with state := ms.StoreMessageInfo mi }
    else
      Except.ok x1

/-- Method `GetList` on a pointer receiver `x`. A method call on a pointer can
panic; this body tests `x != nil` before it reads `x.List`, so it never does.
The first component is the returned slice, the second is what `x` points to
after the call (the body assigns nothing). -/
def GetList {Sub : Type} (x : Option (SubscriptionList Sub)) :
    Except Panic (Slice (Option Sub) × Option (SubscriptionList Sub)) :=
  match x with
  | some v => Except.ok (v.List, x)
  | none => Except.ok (Slice.nil, x)

/-! ## Wire format

The binary encoding in which the descriptor literal of this file is written,
and in which messages are encoded: a message is a sequence of fields, each a
key (field number and wire type in one varint) followed by a value whose shape
the wire type fixes. Reading it is the work of the protobuf runtime; the
repository holds no reader of its own, so the functions of this section follow
the published encoding. -/

/-- Modelled from the spec: the runtime's varint reader, which the repository
does not contain. Reads one base-128 varint, least significant group first; a
byte of 128 or more announces a further byte. Returns the value and the unread
bytes. -/
def decodeVarint : List Nat → Option (Nat × List Nat)
  | [] => none
  | b :: bs =>
    if b < 128 then some (b, bs)
    else
      match decodeVarint bs with
      | some (v, rest) => some (b % 128 + 128 * v, rest)
      | none => none

/-- Splits off exactly `n` bytes; fails when fewer are left. -/
def takeExact (n : Nat) (bs : List Nat) : Option (List Nat × List Nat) :=
  if n ≤ bs.length then some (bs.take n, bs.drop n) else none

/-- The value of one field on the wire, by wire type:
0 varint, 1 64-bit, 2 length-delimited, 5 32-bit. -/
inductive WireValue where
  | varint (v : Nat)
  | fixed64 (bs : List Nat)
  | bytes (bs : List Nat)
  | fixed32 (bs : List Nat)
  deriving DecidableEq, Repr

/-- The wire type number of a value. -/
def WireValue.wireType : WireValue → Nat
  | varint _ => 0
  | fixed64 _ => 1
  | bytes _ => 2
  | fixed32 _ => 5

/-- One field of a message on the wire: a (field number, wire type, value)
triple, the wire type being carried by the value. -/
structure Entry where
  num : Nat
  val : WireValue
  deriving DecidableEq, Repr

/-- Modelled from the spec: the runtime's field reader, which the repository
does not contain; a field is a (field-number, wire-type, value) triple. Reads
the key, then the value its wire type calls for. Field number 0 and the group
wire types 3 and 4 are malformed, as is a length prefix that runs past the end
of the input. -/
def parseEntry (bs : List Nat) : Option (Entry × List Nat) :=
  match decodeVarint bs with
  | none => none
  | some (key, r) =>
    if key / 8 = 0 then none
    else
      match key % 8 with
      | 0 =>
        match decodeVarint r with
        | some (v, r1) => some ({ num := key / 8, val := WireValue.varint v }, r1)
        | none => none
      | 1 =>
        match takeExact 8 r with
        | some (p, r1) => some ({ num := key / 8, val := WireValue.fixed64 p }, r1)
        | none => none
      | 2 =>
        match decodeVarint r with
        | some (n, r1) =>
          match takeExact n r1 with
          | some (p, r2) => some ({ num := key / 8, val := WireValue.bytes p }, r2)
          | none => none
        | none => none
      | 5 =>
        match takeExact 4 r with
        | some (p, r1) => some ({ num := key / 8, val := WireValue.fixed32 p }, r1)
        | none => none
      | _ => none

/-- Reads fields until the input is used up, at most `fuel` of them. -/
def parseEntries : Nat → List Nat → Option (List Entry)
  | _, [] => some []
  | 0, _ :: _ => none
  | fuel + 1, b :: bs =>
    match parseEntry (b :: bs) with
    | none => none
    | some (e, rest) =>
      match parseEntries fuel rest with
      | some es => some (e :: es)
      | none => none

/-- Parses a whole message: every byte must be < 256 and the fields must use
up the input exactly. Each field takes at least one byte, so the length of the
input is fuel enough (`parseEntries_fuel`). -/
def parseMessage (bs : List Nat) : Option (List Entry) :=
  if bs.all (fun b => decide (b < 256)) then parseEntries bs.length bs else none

/-- Text of a string field; the model reads 7-bit ASCII only. -/
def asciiString (bs : List Nat) : Option String :=
  if bs.all (fun b => decide (b < 128)) then some (String.mk (bs.map Char.ofNat)) else none

/-! ## Descriptor messages

The raw descriptor is an encoded `FileDescriptorProto`. The field numbers
below are those of `google/protobuf/descriptor.proto`; fields this development
does not interpret are kept, parsed, under `other`. -/

/-- Descriptor of one field of a message. `label` 3 is `LABEL_REPEATED`,
`type` 11 is `TYPE_MESSAGE`. -/
structure FieldDescriptorProto where
  name : Option String
  number : Option Nat
  label : Option Nat
  type : Option Nat
  type_name : Option String
  json_name : Option String
  other : List Entry
  deriving DecidableEq, Repr

/-- Descriptor of one message type. -/
structure DescriptorProto where
  name : Option String
  field : List FieldDescriptorProto
  other : List Entry
  deriving DecidableEq, Repr

/-- Descriptor of one `.proto` file. Enums, services, extensions and the
options are kept as the fields of their nested messages. -/
structure FileDescriptorProto where
  name : Option String
  package : Option String
  dependency : List String
  message_type : List DescriptorProto
  enum_type : List (List Entry)
  service : List (List Entry)
  extension : List (List Entry)
  options : Option (List Entry)
  syntaxName : Option String
  other : List Entry
  deriving DecidableEq, Repr

/-- Adds one wire field to a field descriptor; a known field number with the
wrong wire type, or a string that is not text, is malformed. -/
def FieldDescriptorProto.addEntry (m : FieldDescriptorProto) (e : Entry) :
    Option FieldDescriptorProto :=
  match e.num, e.val with
  | 1, WireValue.bytes b => (asciiString b).map fun s => { m with name := some s }
  | 1, _ => none
  | 3, WireValue.varint v => some { m with number := some v }
  | 3, _ => none
  | 4, WireValue.varint v => some { m with label := some v }
  | 4, _ => none
  | 5, WireValue.varint v => some { m with type := some v }
  | 5, _ => none
  | 6, WireValue.bytes b => (asciiString b).map fun s => { m with type_name := some s }
  | 6, _ => none
  | 10, WireValue.bytes b => (asciiString b).map fun s => { m with json_name := some s }
  | 10, _ => none
  | _, _ => some { m with other := m.other ++ [e] }

/-- Folds a partial step function over wire fields, stopping at the first
failure. -/
def foldEntries {α : Type} (step : α → Entry → Option α) : α → List Entry → Option α
  | a, [] => some a
  | a, e :: es =>
    match step a e with
    | some a1 => foldEntries step a1 es
    | none => none

/-- Decodes a `FieldDescriptorProto` from the payload of a length-delimited
field; the payload must parse to its last byte. -/
def parseFieldDescriptorProto (bs : List Nat) : Option FieldDescriptorProto :=
  match parseMessage bs with
  | some es =>
    foldEntries FieldDescriptorProto.addEntry
      { name := none, number := none, label := none, type := none, type_name := none,
        json_name := none, other := [] } es
  | none => none

/-- Adds one wire field to a message descriptor; field 2 holds a nested field
descriptor. -/
def DescriptorProto.addEntry (m : DescriptorProto) (e : Entry) : Option DescriptorProto :=
  match e.num, e.val with
  | 1, WireValue.bytes b => (asciiString b).map fun s => { m with name := some s }
  | 1, _ => none
  | 2, WireValue.bytes b =>
    (parseFieldDescriptorProto b).map fun f => { m with field := m.field ++ [f] }
  | 2, _ => none
  | _, _ => some { m with other := m.other ++ [e] }

/-- Decodes a `DescriptorProto`, nested field descriptors included. -/
def parseDescriptorProto (bs : List Nat) : Option DescriptorProto :=
  match parseMessage bs with
  | some es => foldEntries DescriptorProto.addEntry { name := none, field := [], other := [] } es
  | none => none

/-- Adds one wire field to a file descriptor. Fields 4 to 8 hold nested
messages, each of which must itself parse to its last byte. -/
def FileDescriptorProto.addEntry (m : FileDescriptorProto) (e : Entry) :
    Option FileDescriptorProto :=
  match e.num, e.val with
  | 1, WireValue.bytes b => (asciiString b).map fun s => { m with name := some s }
  | 1, _ => none
  | 2, WireValue.bytes b => (asciiString b).map fun s => { m with package := some s }
  | 2, _ => none
  | 3, WireValue.bytes b => (asciiString b).map fun s => { m with dependency := m.dependency ++ [s] }
  | 3, _ => none
  | 4, WireValue.bytes b =>
    (parseDescriptorProto b).map fun d => { m with message_type := m.message_type ++ [d] }
  | 4, _ => none
  | 5, WireValue.bytes b => (parseMessage b).map fun d => { m with enum_type := m.enum_type ++ [d] }
  | 5, _ => none
  | 6, WireValue.bytes b => (parseMessage b).map fun d => { m with service := m.service ++ [d] }
  | 6, _ => none
  | 7, WireValue.bytes b => (parseMessage b).map fun d => { m with extension := m.extension ++ [d] }
  | 7, _ => none
  | 8, WireValue.bytes b => (parseMessage b).map fun d => { m with options := some d }
  | 8, _ => none
  | 12, WireValue.bytes b => (asciiString b).map fun s => { m with syntaxName := some s }
  | 12, _ => none
  | _, _ => some { m with other := m.other ++ [e] }

/-- Decodes a `FileDescriptorProto` from raw descriptor bytes. -/
def parseFileDescriptorProto (bs : List Nat) : Option FileDescriptorProto :=
  match parseMessage bs with
  | some es =>
    foldEntries FileDescriptorProto.addEntry
      { name := none, package := none, dependency := [], message_type := [], enum_type := [],
        service := [], extension := [], options := none, syntaxName := none, other := [] } es
  | none => none

/-- Fully-qualified name of a message of a file: the package, a dot, the
message name. -/
def fullName (package name : String) : String := package ++ "." ++ name

/-! ## Package-level variables and registration (source lines 71-164) -/

/-- The bytes of the composite literal that initialises
`file_wso2_discovery_subscription_subscription_list_proto_rawDesc`. -/
def rawDescBytes : List Nat := [
  0x0a, 0x33, 0x77, 0x73, 0x6f, 0x32, 0x2f, 0x64, 0x69, 0x73, 0x63, 0x6f, 0x76, 0x65, 0x72, 0x79,
  0x2f, 0x73, 0x75, 0x62, 0x73, 0x63, 0x72, 0x69, 0x70, 0x74, 0x69, 0x6f, 0x6e, 0x2f, 0x73, 0x75,
  0x62, 0x73, 0x63, 0x72, 0x69, 0x70, 0x74, 0x69, 0x6f, 0x6e, 0x5f, 0x6c, 0x69, 0x73, 0x74, 0x2e,
  0x70, 0x72, 0x6f, 0x74, 0x6f, 0x12, 0x1b, 0x77, 0x73, 0x6f, 0x32, 0x2e, 0x64, 0x69, 0x73, 0x63,
  0x6f, 0x76, 0x65, 0x72, 0x79, 0x2e, 0x73, 0x75, 0x62, 0x73, 0x63, 0x72, 0x69, 0x70, 0x74, 0x69,
  0x6f, 0x6e, 0x1a, 0x2e, 0x77, 0x73, 0x6f, 0x32, 0x2f, 0x64, 0x69, 0x73, 0x63, 0x6f, 0x76, 0x65,
  0x72, 0x79, 0x2f, 0x73, 0x75, 0x62, 0x73, 0x63, 0x72, 0x69, 0x70, 0x74, 0x69, 0x6f, 0x6e, 0x2f,
  0x73, 0x75, 0x62, 0x73, 0x63, 0x72, 0x69, 0x70, 0x74, 0x69, 0x6f, 0x6e, 0x2e, 0x70, 0x72, 0x6f,
  0x74, 0x6f, 0x22, 0x51, 0x0a, 0x10, 0x53, 0x75, 0x62, 0x73, 0x63, 0x72, 0x69, 0x70, 0x74, 0x69,
  0x6f, 0x6e, 0x4c, 0x69, 0x73, 0x74, 0x12, 0x3d, 0x0a, 0x04, 0x6c, 0x69, 0x73, 0x74, 0x18, 0x02,
  0x20, 0x03, 0x28, 0x0b, 0x32, 0x29, 0x2e, 0x77, 0x73, 0x6f, 0x32, 0x2e, 0x64, 0x69, 0x73, 0x63,
  0x6f, 0x76, 0x65, 0x72, 0x79, 0x2e, 0x73, 0x75, 0x62, 0x73, 0x63, 0x72, 0x69, 0x70, 0x74, 0x69,
  0x6f, 0x6e, 0x2e, 0x53, 0x75, 0x62, 0x73, 0x63, 0x72, 0x69, 0x70, 0x74, 0x69, 0x6f, 0x6e, 0x52,
  0x04, 0x6c, 0x69, 0x73, 0x74, 0x42, 0x9a, 0x01, 0x0a, 0x2e, 0x6f, 0x72, 0x67, 0x2e, 0x77, 0x73,
  0x6f, 0x32, 0x2e, 0x63, 0x68, 0x6f, 0x72, 0x65, 0x6f, 0x2e, 0x63, 0x6f, 0x6e, 0x6e, 0x65, 0x63,
  0x74, 0x2e, 0x64, 0x69, 0x73, 0x63, 0x6f, 0x76, 0x65, 0x72, 0x79, 0x2e, 0x73, 0x75, 0x62, 0x73,
  0x63, 0x72, 0x69, 0x70, 0x74, 0x69, 0x6f, 0x6e, 0x42, 0x15, 0x53, 0x75, 0x62, 0x73, 0x63, 0x72,
  0x69, 0x70, 0x74, 0x69, 0x6f, 0x6e, 0x4c, 0x69, 0x73, 0x74, 0x50, 0x72, 0x6f, 0x74, 0x6f, 0x50,
  0x01, 0x5a, 0x4f, 0x67, 0x69, 0x74, 0x68, 0x75, 0x62, 0x2e, 0x63, 0x6f, 0x6d, 0x2f, 0x65, 0x6e,
  0x76, 0x6f, 0x79, 0x70, 0x72, 0x6f, 0x78, 0x79, 0x2f, 0x67, 0x6f, 0x2d, 0x63, 0x6f, 0x6e, 0x74,
  0x72, 0x6f, 0x6c, 0x2d, 0x70, 0x6c, 0x61, 0x6e, 0x65, 0x2f, 0x77, 0x73, 0x6f, 0x32, 0x2f, 0x64,
  0x69, 0x73, 0x63, 0x6f, 0x76, 0x65, 0x72, 0x79, 0x2f, 0x73, 0x75, 0x62, 0x73, 0x63, 0x72, 0x69,
  0x70, 0x74, 0x69, 0x6f, 0x6e, 0x3b, 0x73, 0x75, 0x62, 0x73, 0x63, 0x72, 0x69, 0x70, 0x74, 0x69,
  0x6f, 0x6e, 0x62, 0x06, 0x70, 0x72, 0x6f, 0x74, 0x6f, 0x33
]

/-- The Go types listed in the `goTypes` table: `(*SubscriptionList)(nil)` and
`(*Subscription)(nil)`. -/
inductive GoType where
  | SubscriptionList
  | Subscription
  deriving DecidableEq, Repr

/-- What an exporter hands back: the address of one of the three unexported
fields of the message it was given. -/
inductive InternalField where
  | state
  | sizeCache
  | unknownFields
  deriving DecidableEq, Repr

/-- The runtime's `protoimpl.MessageInfo`, as far as this file writes it: the
`Exporter` function, nil in the zero value. -/
structure MessageInfo where
  Exporter : Option (Int → Option InternalField)

/-- The zero `MessageInfo`, as `make` creates it. -/
def MessageInfo.zero : MessageInfo := { Exporter := none }

/-- The function literal assigned to `msgTypes[0].Exporter` (source lines
133-144), as a function of the index `i`; `v` is the message whose fields are
addressed. -/
def exporter : Int → Option InternalField
  | 0 => some InternalField.state
  | 1 => some InternalField.sizeCache
  | 2 => some InternalField.unknownFields
  | _ => none

/-- The runtime's `protoimpl.DescBuilder` literal. The counts are `int32`. -/
structure DescBuilder where
  GoPackagePath : String
  RawDescriptor : Slice Nat
  NumEnums : Int
  NumMessages : Int
  NumExtensions : Int
  NumServices : Int

/-- The runtime's `protoimpl.TypeBuilder` literal. The message-info table is
created by `make` with length 1 and the variable is never assigned again, so
it is a vector of length 1 and index 0 is always in range. -/
structure TypeBuilder where
  File : DescBuilder
  GoTypes : Slice GoType
  DependencyIndexes : Slice Int
  MessageInfos : Mathlib.Vector MessageInfo 1

/-- A non-nil `protoreflect.FileDescriptor` interface value, as a handle. -/
structure FileDescriptor where
  handle : Nat
  deriving DecidableEq, Repr

/-- What `TypeBuilder.Build` returns, as far as this file reads it. -/
structure Out where
  File : FileDescriptor

/-- The protobuf runtime and the Go toolchain, as this file uses them. Their
functions are taken to return: a panic inside one of them ends the program,
and there is no state after it to speak of. -/
structure Runtime where
  /-- The constant `protoimpl.UnsafeEnabled`. -/
  UnsafeEnabled : Bool
  /-- The function `protoimpl.X.CompressGZIP`. -/
  CompressGZIP : Slice Nat → Slice Nat
  /-- The value of `reflect.TypeOf(x{}).PkgPath()`: the import path of this package. -/
  PkgPath : String
  /-- The method `protoimpl.TypeBuilder.Build`. -/
  Build : TypeBuilder → Out

/-- A call that leaves this file. -/
inductive Event where
  /-- `file_wso2_discovery_subscription_subscription_proto_init()`, the init
  function of `subscription.proto`, declared in another file of the package. -/
  | subscription_proto_init
  /-- `protoimpl.X.CompressGZIP(input)`. -/
  | CompressGZIP (input : Slice Nat)
  /-- `tb.Build()`. -/
  | Build (tb : TypeBuilder)

/-- The package-level variables of the file, and the trace of the calls that
left it. `rawDescOnce` is true once the `sync.Once` has run its function. -/
structure Globals where
  File_wso2_discovery_subscription_subscription_list_proto : Option FileDescriptor
  file_wso2_discovery_subscription_subscription_list_proto_rawDesc : Slice Nat
  file_wso2_discovery_subscription_subscription_list_proto_rawDescOnce : Bool
  file_wso2_discovery_subscription_subscription_list_proto_rawDescData : Slice Nat
  file_wso2_discovery_subscription_subscription_list_proto_msgTypes : Mathlib.Vector MessageInfo 1
  file_wso2_discovery_subscription_subscription_list_proto_goTypes : Slice GoType
  file_wso2_discovery_subscription_subscription_list_proto_depIdxs : Slice Int
  trace : List Event

/-- The variables as their declarations initialise them, before any `init`
function has run. `rawDescData` starts as `rawDesc`. -/
def Globals.initial : Globals :=
  { File_wso2_discovery_subscription_subscription_list_proto := none
    file_wso2_discovery_subscription_subscription_list_proto_rawDesc := Slice.mk rawDescBytes
    file_wso2_discovery_subscription_subscription_list_proto_rawDescOnce := false
    file_wso2_discovery_subscription_subscription_list_proto_rawDescData := Slice.mk rawDescBytes
    file_wso2_discovery_subscription_subscription_list_proto_msgTypes :=
      Mathlib.Vector.replicate 1 MessageInfo.zero
    file_wso2_discovery_subscription_subscription_list_proto_goTypes :=
      Slice.mk [GoType.SubscriptionList, GoType.Subscription]
    file_wso2_discovery_subscription_subscription_list_proto_depIdxs :=
      Slice.mk [1, 1, 1, 1, 1, 0]
    trace := [] }

/-- The function `file_wso2_discovery_subscription_subscription_list_proto_rawDescGZIP`:
the `sync.Once` runs the function literal the first time only; the value of
`rawDescData` is returned. -/
def file_wso2_discovery_subscription_subscription_list_proto_rawDescGZIP
    (rt : Runtime) (g : Globals) : Slice Nat × Globals :=
  let g1 :=
    if g.file_wso2_discovery_subscription_subscription_list_proto_rawDescOnce then g
    else
      let data := g.file_wso2_discovery_subscription_subscription_list_proto_rawDescData
      { g with
        file_wso2_discovery_subscription_subscription_list_proto_rawDescData := rt.CompressGZIP data
        file_wso2_discovery_subscription_subscription_list_proto_rawDescOnce := true
        trace := g.trace ++ [Event.CompressGZIP data] }
  (g1.file_wso2_discovery_subscription_subscription_list_proto_rawDescData, g1)

/-- A runtime for examples: its `CompressGZIP` only frames the input with the
two bytes every gzip stream starts with. -/
def Runtime.sample : Runtime :=
  { UnsafeEnabled := true
    CompressGZIP := fun b => Slice.mk (31 :: 139 :: b.toList)
    PkgPath := "subscription"
    Build := fun _ => { File := { handle := 0 } } }

/-- Method `Descriptor`: the receiver is not named and not read. -/
def Descriptor {Sub : Type} (rt : Runtime) (_x : Option (SubscriptionList Sub)) (g : Globals) :
    (Slice Nat × List Int) × Globals :=
  let r := file_wso2_discovery_subscription_subscription_list_proto_rawDescGZIP rt g
  ((r.1, [0]), r.2)

/-- The `TypeBuilder` literal of the init function (source lines 147-159),
over the variables as they stand when it is evaluated. -/
def typeBuilder (rt : Runtime) (g : Globals) : TypeBuilder :=
  { File :=
      { GoPackagePath := rt.PkgPath
        RawDescriptor := g.file_wso2_discovery_subscription_subscription_list_proto_rawDesc
        NumEnums := 0
        NumMessages := 1
        NumExtensions := 0
        NumServices := 0 }
    GoTypes := g.file_wso2_discovery_subscription_subscription_list_proto_goTypes
    DependencyIndexes := g.file_wso2_discovery_subscription_subscription_list_proto_depIdxs
    MessageInfos := g.file_wso2_discovery_subscription_subscription_list_proto_msgTypes }

/-- The statement `if !protoimpl.UnsafeEnabled { ... }` of the init function
(source lines 132-145): without unsafe support, entry 0 of the message-info
table gets its exporter. -/
def setExporter (rt : Runtime) (g : Globals) : Globals :=
  if !rt.UnsafeEnabled then
    { g with
      file_wso2_discovery_subscription_subscription_list_proto_msgTypes :=
        g.file_wso2_discovery_subscription_subscription_list_proto_msgTypes.set 0
          { g.file_wso2_discovery_subscription_subscription_list_proto_msgTypes.get 0 with
            Exporter := some exporter } }
  else g

/-- The function `file_wso2_discovery_subscription_subscription_list_proto_init`. -/
def file_wso2_discovery_subscription_subscription_list_proto_init
    (rt : Runtime) (g : Globals) : Globals :=
  if g.File_wso2_discovery_subscription_subscription_list_proto.isSome then g
  else
    let g1 := { g with trace := g.trace ++ [Event.subscription_proto_init] }
    let g2 := setExporter rt g1
    let tb := typeBuilder rt g2
    let out := rt.Build tb
    { g2 with
      File_wso2_discovery_subscription_subscription_list_proto := some out.File
      file_wso2_discovery_subscription_subscription_list_proto_rawDesc := Slice.nil
      file_wso2_discovery_subscription_subscription_list_proto_goTypes := Slice.nil
      file_wso2_discovery_subscription_subscription_list_proto_depIdxs := Slice.nil
      trace := g2.trace ++ [Event.Build tb] }

/-- The package's `init` function (source line 126). -/
def init (rt : Runtime) (g : Globals) : Globals :=
  file_wso2_discovery_subscription_subscription_list_proto_init rt g

/-! ## Reading the registration tables -/

/-- The message a `Descriptor()` index path of length one points at: the
top-level message of that index. -/
def messageAt (fd : FileDescriptorProto) (path : List Int) : Option DescriptorProto :=
  match path with
  | [i] => if 0 ≤ i then fd.message_type[i.toNat]? else none
  | _ => none

/-- Fully-qualified name of the message that `path` points at in the file
descriptor encoded by `raw`. -/
def qualifiedNameAt (raw : Slice Nat) (path : List Int) : Option String :=
  match parseFileDescriptorProto raw.toList with
  | some fd =>
    match fd.package, messageAt fd path with
    | some p, some m => m.name.map (fullName p)
    | _, _ => none
  | none => none

/-- The five sub-lists of a dependency-index table, numbered in the order in
which the type builder reads them: the start offset of sub-list `k` is stored
at position `len - 1 - k` (source lines 117-124, read from the bottom). -/
inductive DepList where
  | fieldTypeName
  | extensionExtendee
  | extensionTypeName
  | methodInputType
  | methodOutputType
  deriving DecidableEq, Repr

/-- Position of a sub-list in the reading order. -/
def DepList.index : DepList → Nat
  | fieldTypeName => 0
  | extensionExtendee => 1
  | extensionTypeName => 2
  | methodInputType => 3
  | methodOutputType => 4

/-- Start offset of sub-list `k`, read from the end of the table. -/
def depStart (x : List Int) (k : Nat) : Option Int :=
  if k + 1 ≤ x.length then x[x.length - 1 - k]? else none

/-- End offset of sub-list `k`: the start of the next sub-list, and for the
last one the number of dependency entries, which is the length of the table
less its five offsets. -/
def depEnd (x : List Int) (k : Nat) : Option Int :=
  if k < 4 then depStart x (k + 1)
  else if 5 ≤ x.length then some ((x.length - 5 : Nat) : Int) else none

/-- The entries of sub-list `d`: `x[start:end]`, when the offsets are in
range. -/
def depSubList (x : Slice Int) (d : DepList) : Option (List Int) :=
  match depStart x.toList d.index, depEnd x.toList d.index with
  | some s, some e =>
    if 0 ≤ s ∧ s ≤ e ∧ e + 5 ≤ x.toList.length then
      some ((x.toList.drop s.toNat).take (e.toNat - s.toNat))
    else none
  | _, _ => none

/-- The Go type a dependency entry refers to: `goTypes[i]`. -/
def goTypeAt (goTypes : Slice GoType) (i : Int) : Option GoType :=
  if 0 ≤ i then goTypes.toList[i.toNat]? else none

/-! ## The struct tag -/

/-- Splits text at every comma. -/
def splitOnComma : List Char → List (List Char)
  | [] => [[]]
  | c :: cs =>
    match splitOnComma cs with
    | [] => [[c]]
    | w :: ws => if c = ',' then [] :: w :: ws else (c :: w) :: ws

/-- Reads an unsigned decimal number. -/
def parseDecimal (cs : List Char) : Option Nat :=
  if cs.isEmpty then none
  else cs.foldlM (fun acc c => if c.isDigit then some (acc * 10 + (c.toNat - 48)) else none) 0

/-- What a `protobuf` struct tag declares about a field. -/
structure FieldTag where
  wire : Option String
  number : Option Nat
  cardinality : Option String
  name : Option String
  proto3 : Bool
  other : List String
  deriving DecidableEq, Repr

/-- Reads one comma-separated part of a struct tag. -/
def FieldTag.addPart (t : FieldTag) (p : List Char) : FieldTag :=
  let s := String.mk p
  if s = "varint" ∨ s = "fixed32" ∨ s = "fixed64" ∨ s = "bytes" ∨ s = "zigzag32" ∨
      s = "zigzag64" ∨ s = "group" then { t with wire := some s }
  else if s = "opt" ∨ s = "req" ∨ s = "rep" then { t with cardinality := some s }
  else if "name=".data.isPrefixOf p then { t with name := some (String.mk (p.drop 5)) }
  else if s = "proto3" then { t with proto3 := true }
  else
    match parseDecimal p with
    | some n => { t with number := some n }
    | none => { t with other := t.other ++ [s] }

/-- Reads the value of a `protobuf` struct tag. -/
def parseFieldTag (tag : String) : FieldTag :=
  (splitOnComma tag.data).foldl FieldTag.addPart
    { wire := none, number := none, cardinality := none, name := none, proto3 := false,
      other := [] }

/-- Wire type that a struct tag's wire word stands for. -/
def wireTypeOfTag (w : String) : Option Nat :=
  if w = "varint" ∨ w = "zigzag32" ∨ w = "zigzag64" then some 0
  else if w = "fixed64" then some 1
  else if w = "bytes" then some 2
  else if w = "group" then some 3
  else if w = "fixed32" then some 5
  else none

/-- Wire type of a field by its descriptor `type`: 2 (length-delimited) for
string 9, message 11 and bytes 12; 1 for the 64-bit types 1, 6, 16; 5 for the
32-bit types 2, 7, 15; 3 for a group 10; 0 (varint) for the other scalar
types up to 18. -/
def wireTypeOfFieldType (t : Nat) : Option Nat :=
  if t = 9 ∨ t = 11 ∨ t = 12 then some 2
  else if t = 1 ∨ t = 6 ∨ t = 16 then some 1
  else if t = 2 ∨ t = 7 ∨ t = 15 then some 5
  else if t = 10 then some 3
  else if 1 ≤ t ∧ t ≤ 18 then some 0
  else none

/-- The key of a field on the wire: field number and wire type in one number. -/
def wireKey (num wireType : Nat) : Nat := num * 8 + wireType

/-- Wire key that the struct tag of the Go field `List` declares. -/
def tagWireKey (tag : String) : Option Nat :=
  match (parseFieldTag tag).number, (parseFieldTag tag).wire with
  | some n, some w => (wireTypeOfTag w).map (wireKey n)
  | _, _ => none

/-- Wire key that a field descriptor declares. -/
def descriptorWireKey (f : FieldDescriptorProto) : Option Nat :=
  match f.number, f.type with
  | some n, some t => (wireTypeOfFieldType t).map (wireKey n)
  | _, _ => none

/-! ## Sequences of calls -/

/-- A call into the registration code of the file. -/
inductive Call where
  | init
  | rawDescGZIP
  | Descriptor
  deriving DecidableEq, Repr

/-- Whether a call reaches the raw-descriptor accessor. -/
def Call.isAccess : Call → Bool
  | Call.init => false
  | Call.rawDescGZIP => true
  | Call.Descriptor => true

/-- Runs the calls in order; returns the bytes handed back by each call that
reaches the accessor, and the variables at the end. `Descriptor` is called on
a nil receiver, which it does not read. -/
def runCalls (rt : Runtime) : List Call → Globals → List (Slice Nat) × Globals
  | [], g => ([], g)
  | Call.init :: cs, g => runCalls rt cs (init rt g)
  | Call.rawDescGZIP :: cs, g =>
    let r := file_wso2_discovery_subscription_subscription_list_proto_rawDescGZIP rt g
    let rest := runCalls rt cs r.2
    (r.1 :: rest.1, rest.2)
  | Call.Descriptor :: cs, g =>
    let r := Descriptor rt (none : Option (SubscriptionList Unit)) g
    let rest := runCalls rt cs r.2
    (r.1.1 :: rest.1, rest.2)

/-- The inputs of the `CompressGZIP` calls of a trace, in order. -/
def gzipInputs : List Event → List (Slice Nat)
  | [] => []
  | Event.CompressGZIP b :: es => b :: gzipInputs es
  | _ :: es => gzipInputs es

/-! ## Encoding and decoding a SubscriptionList

The encoder and the decoder are the protobuf runtime's: generic code driven
by the registered descriptor. They are not part of this repository; what
follows models them for the one layout this file declares. -/

/-- Go's `append(s, a)`: the result is never the nil slice. -/
def Slice.append {α : Type} (s : Slice α) (a : α) : Slice α := Slice.mk (s.toList ++ [a])

/-- Writes a varint with at most `fuel + 1` bytes. -/
def encodeVarintAux : Nat → Nat → List Nat
  | 0, n => [n % 128]
  | fuel + 1, n => if n < 128 then [n] else (n % 128 + 128) :: encodeVarintAux fuel (n / 128)

/-- Writes a base-128 varint, least significant group first. A value `n`
needs fewer than `n + 1` bytes. -/
def encodeVarint (n : Nat) : List Nat := encodeVarintAux n n

/-- Writes the value of a field. -/
def encodeValue : WireValue → List Nat
  | WireValue.varint v => encodeVarint v
  | WireValue.fixed64 bs => bs
  | WireValue.bytes bs => encodeVarint bs.length ++ bs
  | WireValue.fixed32 bs => bs

/-- Writes one field: key, then value. -/
def encodeEntry (e : Entry) : List Nat :=
  encodeVarint (wireKey e.num e.val.wireType) ++ encodeValue e.val

/-- Writes the fields of a message one after the other. -/
def encodeEntries : List Entry → List Nat
  | [] => []
  | e :: es => encodeEntry e ++ encodeEntries es

/-- Field number of `list`, as the struct tag and the descriptor give it. -/
def listFieldNumber : Nat := 2

/-- Failure of the encoder or of the decoder. -/
inductive CodecError where
  | EncodeError
  | DecodeError
  deriving DecidableEq, Repr

/-- Modelled from the spec: the encoder's treatment of the elements of
`list`, which the runtime does and this repository does not contain. Each
element is emitted as a (field-number, wire-type, value) triple under field 2,
length-delimited, holding the element's own encoding `encSub`; a nil element
is an `EncodeError`. -/
def encodeList {Sub : Type} (encSub : Sub → List Nat) :
    List (Option Sub) → Except CodecError (List Nat)
  | [] => Except.ok []
  | none :: _ => Except.error CodecError.EncodeError
  | some s :: rest =>
    match encodeList encSub rest with
    | Except.ok bs =>
      Except.ok (encodeEntry { num := listFieldNumber, val := WireValue.bytes (encSub s) } ++ bs)
    | Except.error e => Except.error e

/-- Modelled from the spec: the reflective encoder for `SubscriptionList`,
which is the runtime's. The elements of `list` in order, then the unknown
fields as they were received. -/
def Marshal {Sub : Type} (encSub : Sub → List Nat) (x : SubscriptionList Sub) :
    Except CodecError (List Nat) :=
  match encodeList encSub x.List.toList with
  | Except.ok bs => Except.ok (bs ++ x.unknownFields.toList)
  | Except.error e => Except.error e

/-- Modelled from the spec: what the decoder does with one field, `raw` being
the bytes it was read from. Field 2, length-delimited, is decoded with the
element decoder `decSub` and appended to `list`; field 2 under another wire
type is a schema mismatch; any other field is kept verbatim. -/
def addField {Sub : Type} (decSub : List Nat → Option Sub) (m : SubscriptionList Sub)
    (e : Entry) (raw : List Nat) : Option (SubscriptionList Sub) :=
  if e.num = listFieldNumber then
    match e.val with
    | WireValue.bytes p => (decSub p).map fun s => { m with List := m.List.append (some s) }
    | _ => none
  else some { m with unknownFields := Slice.mk (m.unknownFields.toList ++ raw) }

/-- Modelled from the spec: the decoder's loop over the fields of the input,
at most `fuel` of them. -/
def unmarshalFields {Sub : Type} (decSub : List Nat → Option Sub) :
    Nat → List Nat → SubscriptionList Sub → Option (SubscriptionList Sub)
  | _, [], m => some m
  | 0, _ :: _, _ => none
  | fuel + 1, b :: bs, m =>
    match parseEntry (b :: bs) with
    | none => none
    | some (e, rest) =>
      match addField decSub m e ((b :: bs).take ((b :: bs).length - rest.length)) with
      | some m1 => unmarshalFields decSub fuel rest m1
      | none => none

/-- Modelled from the spec: the reflective decoder for `SubscriptionList`,
which is the runtime's. It starts from the zero value; truncated or
mismatched input is a `DecodeError`. Each field takes at least one byte, so
the length of the input is fuel enough (`unmarshalFields_fuel`). -/
def Unmarshal {Sub : Type} (decSub : List Nat → Option Sub) (bs : List Nat) :
    Except CodecError (SubscriptionList Sub) :=
  if bs.all (fun b => decide (b < 256)) then
    match unmarshalFields decSub bs.length bs (SubscriptionList.zero Sub) with
    | some m => Except.ok m
    | none => Except.error CodecError.DecodeError
  else Except.error CodecError.DecodeError

/-- An element type for examples: a record with one identifier, written as
field 1, varint, for identifiers below 128. -/
structure SampleSub where
  id : Fin 128
  deriving DecidableEq, Repr

/-- Encoding of a `SampleSub`: key 8 (field 1, varint), then the identifier. -/
def SampleSub.encode (s : SampleSub) : List Nat := [8, s.id.val]

/-- Decoding of a `SampleSub`. -/
def SampleSub.decode : List Nat → Option SampleSub
  | [8, n] => if h : n < 128 then some { id := ⟨n, h⟩ } else none
  | _ => none

/-! ## Names and checks used in the statements -/

/-- The value `LABEL_REPEATED` of `FieldDescriptorProto.Label`. -/
def LABEL_REPEATED : Nat := 3

/-- The value `TYPE_MESSAGE` of `FieldDescriptorProto.Type`. -/
def TYPE_MESSAGE : Nat := 11

/-- The length-delimited wire type. -/
def WIRE_LENGTH_DELIMITED : Nat := 2

/-- Whether bytes start with the two identification bytes of a gzip stream
(31 and 139): the input that a gzip decompression accepts. -/
def hasGzipHeader (bs : List Nat) : Bool := decide (bs.take 2 = [31, 139])

/-- Whether a message parses and its fields, written out again, give back the
same bytes: every key, varint and length prefix accounts for exactly the bytes
it stands for. -/
def reencodes (bs : List Nat) : Bool :=
  decide ((parseMessage bs).map encodeEntries = some bs)

/-- Payloads of the length-delimited fields of `bs` with a number in `nums`;
none when `bs` does not parse. -/
def nestedPayloads (nums : List Nat) (bs : List Nat) : List (List Nat) :=
  match parseMessage bs with
  | some es =>
    es.filterMap fun e =>
      match e.val with
      | WireValue.bytes p => if e.num ∈ nums then some p else none
      | _ => none
  | none => []

/-- The cache of the accessor is not filled yet: the `sync.Once` has not run,
`rawDescData` still holds the descriptor bytes, and `CompressGZIP` has not been
called. -/
def CacheEmpty (g : Globals) : Prop :=
  g.file_wso2_discovery_subscription_subscription_list_proto_rawDescOnce = false ∧
  g.file_wso2_discovery_subscription_subscription_list_proto_rawDescData = Slice.mk rawDescBytes ∧
  gzipInputs g.trace = []

/-- The cache of the accessor is filled: the `sync.Once` has run, `rawDescData`
holds what `CompressGZIP` made of the descriptor bytes, and that was the one
call of `CompressGZIP`. -/
def CacheFilled (rt : Runtime) (g : Globals) : Prop :=
  g.file_wso2_discovery_subscription_subscription_list_proto_rawDescOnce = true ∧
  g.file_wso2_discovery_subscription_subscription_list_proto_rawDescData =
    rt.CompressGZIP (Slice.mk rawDescBytes) ∧
  gzipInputs g.trace = [Slice.mk rawDescBytes]

instance (g : Globals) : Decidable (CacheEmpty g) := by
  unfold CacheEmpty
  infer_instance

instance (rt : Runtime) (g : Globals) : Decidable (CacheFilled rt g) := by
  unfold CacheFilled
  infer_instance

/-- The wire field that carries one element of `list`. -/
def listEntry {Sub : Type} (encSub : Sub → List Nat) (s : Sub) : Entry :=
  { num := listFieldNumber, val := WireValue.bytes (encSub s) }

/-- What the decoder makes of a message when it has read one more element. -/
def appendElement {Sub : Type} (m : SubscriptionList Sub) (s : Sub) : SubscriptionList Sub :=
  { m with List := m.List.append (some s) }

/-! ## Lemmas on the wire format -/

theorem decodeVarint_encodeVarintAux (fuel : Nat) :
    ∀ (n : Nat) (rest : List Nat), n ≤ fuel →
      decodeVarint (encodeVarintAux fuel n ++ rest) = some (n, rest) := by
  induction fuel with
  | zero =>
    intro n rest h
    have hn : n = 0 := by omega
    subst hn
    simp [encodeVarintAux, decodeVarint]
  | succ k ih =>
    intro n rest h
    by_cases hlt : n < 128
    · simp [encodeVarintAux, decodeVarint, hlt]
    · have hk : n / 128 ≤ k := by omega
      have hb : ¬ (n % 128 + 128 < 128) := by omega
      simp only [encodeVarintAux, decodeVarint, hlt, hb, ih (n / 128) rest hk, if_false,
        List.cons_append, Option.some.injEq, Prod.mk.injEq, and_true]
      omega

theorem decodeVarint_encodeVarint (n : Nat) (rest : List Nat) :
    decodeVarint (encodeVarint n ++ rest) = some (n, rest) :=
  decodeVarint_encodeVarintAux n n rest (Nat.le_refl n)

theorem takeExact_append (p rest : List Nat) :
    takeExact p.length (p ++ rest) = some (p, rest) := by
  simp [takeExact]

theorem parseEntry_encodeEntry_bytes (num : Nat) (hnum : 0 < num) (p rest : List Nat) :
    parseEntry (encodeEntry { num := num, val := WireValue.bytes p } ++ rest) =
      some ({ num := num, val := WireValue.bytes p }, rest) := by
  have h8 : (num * 8 + 2) / 8 = num := by omega
  have hm : (num * 8 + 2) % 8 = 2 := by omega
  have h0 : ¬ (num = 0) := by omega
  simp only [encodeEntry, encodeValue, WireValue.wireType, wireKey, parseEntry,
    List.append_assoc, decodeVarint_encodeVarint, h8, hm, h0, if_false, takeExact_append]

/-! ## Lemmas on the accessor's cache -/

theorem decodeVarint_length :
    ∀ (bs : List Nat) (v : Nat) (rest : List Nat),
      decodeVarint bs = some (v, rest) → rest.length < bs.length := by
  intro bs
  induction bs with
  | nil => intro v rest h; simp [decodeVarint] at h
  | cons b bs ih =>
    intro v rest h
    by_cases hb : b < 128
    · simp only [decodeVarint, hb, if_true, Option.some.injEq, Prod.mk.injEq] at h
      rw [← h.2]
      simp
    · simp only [decodeVarint, hb, if_false] at h
      cases hd : decodeVarint bs with
      | none => simp [hd] at h
      | some r =>
        obtain ⟨v1, r1⟩ := r
        simp only [hd, Option.some.injEq, Prod.mk.injEq] at h
        have := ih v1 r1 hd
        rw [← h.2]
        simp only [List.length_cons]
        omega

theorem takeExact_length (n : Nat) (bs p rest : List Nat)
    (h : takeExact n bs = some (p, rest)) : rest.length ≤ bs.length := by
  unfold takeExact at h
  split at h
  · simp only [Option.some.injEq, Prod.mk.injEq] at h
    rw [← h.2]
    simp
  · simp at h

theorem parseEntry_length (bs : List Nat) (e : Entry) (rest : List Nat)
    (h : parseEntry bs = some (e, rest)) : rest.length < bs.length := by
  unfold parseEntry at h
  cases hk : decodeVarint bs with
  | none => simp [hk] at h
  | some kr =>
    obtain ⟨key, r⟩ := kr
    have hr := decodeVarint_length bs key r hk
    simp only [hk] at h
    split at h
    · simp at h
    · split at h
      · cases hv : decodeVarint r with
        | none => simp [hv] at h
        | some vr =>
          obtain ⟨v, r1⟩ := vr
          have := decodeVarint_length r v r1 hv
          simp only [hv, Option.some.injEq, Prod.mk.injEq] at h
          rw [← h.2]; omega
      · cases ht : takeExact 8 r with
        | none => simp [ht] at h
        | some pr =>
          obtain ⟨p, r1⟩ := pr
          have := takeExact_length 8 r p r1 ht
          simp only [ht, Option.some.injEq, Prod.mk.injEq] at h
          rw [← h.2]; omega
      · cases hv : decodeVarint r with
        | none => simp [hv] at h
        | some vr =>
          obtain ⟨n, r1⟩ := vr
          have h1 := decodeVarint_length r n r1 hv
          simp only [hv] at h
          cases ht : takeExact n r1 with
          | none => simp [ht] at h
          | some pr =>
            obtain ⟨p, r2⟩ := pr
            have := takeExact_length n r1 p r2 ht
            simp only [ht, Option.some.injEq, Prod.mk.injEq] at h
            rw [← h.2]; omega
      · cases ht : takeExact 4 r with
        | none => simp [ht] at h
        | some pr =>
          obtain ⟨p, r1⟩ := pr
          have := takeExact_length 4 r p r1 ht
          simp only [ht, Option.some.injEq, Prod.mk.injEq] at h
          rw [← h.2]; omega
      · simp at h

theorem parseEntries_fuel (f1 : Nat) :
    ∀ (f2 : Nat) (bs : List Nat), bs.length ≤ f1 → bs.length ≤ f2 →
      parseEntries f1 bs = parseEntries f2 bs := by
  induction f1 with
  | zero =>
    intro f2 bs h1 _
    have : bs = [] := List.length_eq_zero.mp (by omega)
    subst this
    simp [parseEntries]
  | succ k ih =>
    intro f2 bs h1 h2
    cases bs with
    | nil => simp [parseEntries]
    | cons b bs =>
      cases f2 with
      | zero => simp at h2
      | succ j =>
        simp only [parseEntries]
        cases hp : parseEntry (b :: bs) with
        | none => rfl
        | some er =>
          obtain ⟨e, rest⟩ := er
          have hl := parseEntry_length _ _ _ hp
          simp only [List.length_cons] at hl h1 h2
          simp only [ih j rest (by omega) (by omega)]

theorem unmarshalFields_fuel {Sub : Type} (decSub : List Nat → Option Sub) (f1 : Nat) :
    ∀ (f2 : Nat) (bs : List Nat) (m : SubscriptionList Sub), bs.length ≤ f1 → bs.length ≤ f2 →
      unmarshalFields decSub f1 bs m = unmarshalFields decSub f2 bs m := by
  induction f1 with
  | zero =>
    intro f2 bs m h1 _
    have : bs = [] := List.length_eq_zero.mp (by omega)
    subst this
    simp [unmarshalFields]
  | succ k ih =>
    intro f2 bs m h1 h2
    cases bs with
    | nil => simp [unmarshalFields]
    | cons b bs =>
      cases f2 with
      | zero => simp at h2
      | succ j =>
        simp only [unmarshalFields]
        cases hp : parseEntry (b :: bs) with
        | none => rfl
        | some er =>
          obtain ⟨e, rest⟩ := er
          have hl := parseEntry_length _ _ _ hp
          simp only [List.length_cons] at hl h1 h2
          cases ha : addField decSub m e
              (List.take ((b :: bs).length - rest.length) (b :: bs)) with
          | none => simp only [ha]
          | some m1 =>
            simp only [ha]
            exact ih j rest m1 (by omega) (by omega)

theorem gzipInputs_append (a b : List Event) :
    gzipInputs (a ++ b) = gzipInputs a ++ gzipInputs b := by
  induction a with
  | nil => rfl
  | cons e es ih => cases e <;> simp [gzipInputs, ih]

theorem init_keeps_cache (rt : Runtime) (g : Globals) :
    (init rt g).file_wso2_discovery_subscription_subscription_list_proto_rawDescOnce =
      g.file_wso2_discovery_subscription_subscription_list_proto_rawDescOnce ∧
    (init rt g).file_wso2_discovery_subscription_subscription_list_proto_rawDescData =
      g.file_wso2_discovery_subscription_subscription_list_proto_rawDescData ∧
    gzipInputs (init rt g).trace = gzipInputs g.trace := by
  unfold init file_wso2_discovery_subscription_subscription_list_proto_init
  by_cases h : g.File_wso2_discovery_subscription_subscription_list_proto.isSome = true
  · simp [h]
  · cases hu : rt.UnsafeEnabled <;> simp [h, setExporter, hu, gzipInputs_append, gzipInputs]

theorem init_CacheEmpty (rt : Runtime) (g : Globals) (h : CacheEmpty g) :
    CacheEmpty (init rt g) := by
  obtain ⟨h1, h2, h3⟩ := h
  obtain ⟨k1, k2, k3⟩ := init_keeps_cache rt g
  exact ⟨k1.trans h1, k2.trans h2, k3.trans h3⟩

theorem init_CacheFilled (rt : Runtime) (g : Globals) (h : CacheFilled rt g) :
    CacheFilled rt (init rt g) := by
  obtain ⟨h1, h2, h3⟩ := h
  obtain ⟨k1, k2, k3⟩ := init_keeps_cache rt g
  exact ⟨k1.trans h1, k2.trans h2, k3.trans h3⟩

theorem rawDescGZIP_CacheEmpty (rt : Runtime) (g : Globals) (h : CacheEmpty g) :
    (file_wso2_discovery_subscription_subscription_list_proto_rawDescGZIP rt g).1 =
      rt.CompressGZIP (Slice.mk rawDescBytes) ∧
    CacheFilled rt (file_wso2_discovery_subscription_subscription_list_proto_rawDescGZIP rt g).2 := by
  obtain ⟨h1, h2, h3⟩ := h
  simp [file_wso2_discovery_subscription_subscription_list_proto_rawDescGZIP, CacheFilled, h1, h2,
    h3, gzipInputs_append, gzipInputs]

theorem rawDescGZIP_CacheFilled (rt : Runtime) (g : Globals) (h : CacheFilled rt g) :
    (file_wso2_discovery_subscription_subscription_list_proto_rawDescGZIP rt g).1 =
      rt.CompressGZIP (Slice.mk rawDescBytes) ∧
    (file_wso2_discovery_subscription_subscription_list_proto_rawDescGZIP rt g).2 = g := by
  obtain ⟨h1, h2, _⟩ := h
  simp [file_wso2_discovery_subscription_subscription_list_proto_rawDescGZIP, h1, h2]

theorem runCalls_CacheFilled (rt : Runtime) (cs : List Call) :
    ∀ g : Globals, CacheFilled rt g →
      (∀ b ∈ (runCalls rt cs g).1, b = rt.CompressGZIP (Slice.mk rawDescBytes)) ∧
      (runCalls rt cs g).1.length = cs.countP Call.isAccess ∧
      CacheFilled rt (runCalls rt cs g).2 := by
  induction cs with
  | nil => intro g h; exact ⟨by simp [runCalls], by simp [runCalls], h⟩
  | cons c cs ih =>
    intro g h
    cases c with
    | init =>
      obtain ⟨a, b, d⟩ := ih (init rt g) (init_CacheFilled rt g h)
      exact ⟨by simpa [runCalls] using a, by simpa [runCalls, Call.isAccess] using b,
        by simpa [runCalls] using d⟩
    | rawDescGZIP =>
      obtain ⟨r1, r2⟩ := rawDescGZIP_CacheFilled rt g h
      obtain ⟨a, b, d⟩ := ih g h
      refine ⟨?_, ?_, ?_⟩
      · intro x hx
        simp only [runCalls, r2, List.mem_cons] at hx
        rcases hx with hx | hx
        · exact hx.trans r1
        · exact a x hx
      · simp [runCalls, r2, Call.isAccess, b]
      · simpa [runCalls, r2] using d
    | Descriptor =>
      obtain ⟨r1, r2⟩ := rawDescGZIP_CacheFilled rt g h
      obtain ⟨a, b, d⟩ := ih g h
      refine ⟨?_, ?_, ?_⟩
      · intro x hx
        simp only [runCalls, Descriptor, r2, List.mem_cons] at hx
        rcases hx with hx | hx
        · exact hx.trans r1
        · exact a x hx
      · simp [runCalls, Descriptor, r2, Call.isAccess, b]
      · simpa [runCalls, Descriptor, r2] using d

theorem runCalls_CacheEmpty (rt : Runtime) (cs : List Call) :
    ∀ g : Globals, CacheEmpty g →
      (∀ b ∈ (runCalls rt cs g).1, b = rt.CompressGZIP (Slice.mk rawDescBytes)) ∧
      (runCalls rt cs g).1.length = cs.countP Call.isAccess ∧
      (if cs.any Call.isAccess then CacheFilled rt (runCalls rt cs g).2
        else CacheEmpty (runCalls rt cs g).2) := by
  induction cs with
  | nil => intro g h; exact ⟨by simp [runCalls], by simp [runCalls], by simpa [runCalls] using h⟩
  | cons c cs ih =>
    intro g h
    cases c with
    | init =>
      obtain ⟨a, b, d⟩ := ih (init rt g) (init_CacheEmpty rt g h)
      exact ⟨by simpa [runCalls] using a, by simpa [runCalls, Call.isAccess] using b,
        by simpa [runCalls, Call.isAccess] using d⟩
    | rawDescGZIP =>
      obtain ⟨r1, r2⟩ := rawDescGZIP_CacheEmpty rt g h
      obtain ⟨a, b, d⟩ := runCalls_CacheFilled rt cs _ r2
      refine ⟨?_, ?_, ?_⟩
      · intro x hx
        simp only [runCalls, List.mem_cons] at hx
        rcases hx with hx | hx
        · exact hx.trans r1
        · exact a x hx
      · simp [runCalls, Call.isAccess, b]
      · simpa [runCalls, Call.isAccess] using d
    | Descriptor =>
      obtain ⟨r1, r2⟩ := rawDescGZIP_CacheEmpty rt g h
      obtain ⟨a, b, d⟩ := runCalls_CacheFilled rt cs _ r2
      refine ⟨?_, ?_, ?_⟩
      · intro x hx
        simp only [runCalls, Descriptor, List.mem_cons] at hx
        rcases hx with hx | hx
        · exact hx.trans r1
        · exact a x hx
      · simp [runCalls, Descriptor, Call.isAccess, b]
      · simpa [runCalls, Descriptor, Call.isAccess] using d

/-! ## Lemmas on encoding and decoding -/

theorem encodeVarintAux_bytes (fuel : Nat) :
    ∀ n : Nat, ∀ b ∈ encodeVarintAux fuel n, b < 256 := by
  induction fuel with
  | zero =>
    intro n b hb
    simp only [encodeVarintAux, List.mem_singleton] at hb
    omega
  | succ k ih =>
    intro n b hb
    by_cases hlt : n < 128
    · simp only [encodeVarintAux, hlt, if_true, List.mem_singleton] at hb
      omega
    · simp only [encodeVarintAux, hlt, if_false, List.mem_cons] at hb
      rcases hb with hb | hb
      · omega
      · exact ih _ b hb

theorem encodeEntry_listEntry {Sub : Type} (encSub : Sub → List Nat) (s : Sub) :
    encodeEntry (listEntry encSub s) = 18 :: (encodeVarint (encSub s).length ++ encSub s) := by
  have hk : encodeVarint (wireKey listFieldNumber 2) = [18] := by decide
  simp [encodeEntry, listEntry, encodeValue, WireValue.wireType, hk]

theorem encodeEntries_listEntry_bytes {Sub : Type} (encSub : Sub → List Nat)
    (hbyte : ∀ s, ∀ b ∈ encSub s, b < 256) (vs : List Sub) :
    ∀ b ∈ encodeEntries (vs.map (listEntry encSub)), b < 256 := by
  induction vs with
  | nil => intro b hb; simp [encodeEntries] at hb
  | cons v vs ih =>
    intro b hb
    simp only [List.map_cons, encodeEntries, encodeEntry_listEntry, List.cons_append,
      List.mem_cons, List.mem_append] at hb
    rcases hb with hb | (hb | hb) | hb
    · omega
    · exact encodeVarintAux_bytes _ _ b hb
    · exact hbyte v b hb
    · exact ih b hb

theorem encodeList_valid {Sub : Type} (encSub : Sub → List Nat) (vs : List Sub) :
    encodeList encSub (vs.map some) = Except.ok (encodeEntries (vs.map (listEntry encSub))) := by
  induction vs with
  | nil => rfl
  | cons v vs ih => simp [encodeList, ih, encodeEntries, listEntry]

theorem unmarshalFields_encodeEntries {Sub : Type} (encSub : Sub → List Nat)
    (decSub : List Nat → Option Sub) (hdec : ∀ s, decSub (encSub s) = some s) (vs : List Sub) :
    ∀ (fuel : Nat) (m : SubscriptionList Sub),
      (encodeEntries (vs.map (listEntry encSub))).length ≤ fuel →
      unmarshalFields decSub fuel (encodeEntries (vs.map (listEntry encSub))) m =
        some (vs.foldl appendElement m) := by
  induction vs with
  | nil => intro fuel m _; simp [encodeEntries, unmarshalFields]
  | cons v vs ih =>
    intro fuel m hfuel
    have hp := parseEntry_encodeEntry_bytes listFieldNumber (by decide) (encSub v)
      (encodeEntries (vs.map (listEntry encSub)))
    simp only [List.map_cons, encodeEntries] at hfuel ⊢
    rw [show ({ num := listFieldNumber, val := WireValue.bytes (encSub v) } : Entry) =
      listEntry encSub v from rfl] at hp
    rw [encodeEntry_listEntry] at hfuel hp ⊢
    simp only [List.cons_append, List.length_cons] at hfuel hp ⊢
    cases fuel with
    | zero => omega
    | succ k =>
      have hk : (encodeEntries (vs.map (listEntry encSub))).length ≤ k := by
        simp only [List.length_append] at hfuel
        omega
      simp only [unmarshalFields, hp, addField, listEntry, if_true, hdec, Option.map_some',
        List.foldl_cons]
      exact ih k _ hk

theorem foldl_appendElement {Sub : Type} (vs : List Sub) :
    ∀ m : SubscriptionList Sub,
      (vs.foldl appendElement m).List.toList = m.List.toList ++ vs.map some ∧
      (vs.foldl appendElement m).unknownFields = m.unknownFields ∧
      (vs.foldl appendElement m).sizeCache = m.sizeCache ∧
      (vs.foldl appendElement m).state = m.state := by
  induction vs with
  | nil => intro m; simp
  | cons v vs ih =>
    intro m
    obtain ⟨a, b, c, d⟩ := ih (appendElement m v)
    refine ⟨?_, ?_, ?_, ?_⟩
    · rw [List.foldl_cons, a]; simp [appendElement, Slice.append, Slice.toList]
    · rw [List.foldl_cons, b]; rfl
    · rw [List.foldl_cons, c]; rfl
    · rw [List.foldl_cons, d]; rfl

theorem SampleSub.decode_encode (s : SampleSub) : SampleSub.decode s.encode = some s := by
  simp [SampleSub.encode, SampleSub.decode, s.id.isLt]

theorem SampleSub.encode_bytes (s : SampleSub) : ∀ b ∈ s.encode, b < 256 := by
  intro b hb
  have := s.id.isLt
  simp only [SampleSub.encode, List.mem_cons, List.mem_singleton, List.not_mem_nil, or_false] at hb
  rcases hb with hb | hb <;> omega

/-! ## Theorems: the message type -/

/-- C1: for every non-nil receiver `x`, `GetList` returns, without failing,
exactly the slice stored in `x.List`: the same length, the same elements in the
same order; and `x` points to the same value after the call. -/
theorem GetList_returns_stored_list {Sub : Type} (x : SubscriptionList Sub) :
    ∃ r, GetList (some x) = Except.ok r ∧ r.1 = x.List ∧ r.1.len = x.List.len ∧
      r.1.toList = x.List.toList ∧ r.2 = some x :=
  ⟨(x.List, some x), rfl, rfl, rfl, rfl, rfl⟩

/-- C2, as the code has it: on a nil receiver, and on every message whose
`List` is the nil slice (the zero value among them), `GetList` does not fail
and returns the nil slice, which has length 0 and no elements. -/
theorem GetList_uninitialized_returns_nil_slice {Sub : Type} (st : MessageState) (sc : Int)
    (uf : Slice Nat) :
    GetList (none : Option (SubscriptionList Sub)) = Except.ok (Slice.nil, none) ∧
    GetList (some (SubscriptionList.zero Sub)) =
      Except.ok (Slice.nil, some (SubscriptionList.zero Sub)) ∧
    GetList (some ({ state := st, sizeCache := sc, unknownFields := uf, List := Slice.nil } :
        SubscriptionList Sub)) =
      Except.ok (Slice.nil,
        some { state := st, sizeCache := sc, unknownFields := uf, List := Slice.nil }) ∧
    (Slice.nil : Slice (Option Sub)).len = 0 ∧
    (Slice.nil : Slice (Option Sub)).toList = [] ∧
    (Slice.nil : Slice (Option Sub)).isNil = true :=
  ⟨rfl, rfl, rfl, rfl, rfl, rfl⟩

/-- C2 as stated fails: what `GetList` returns on a nil receiver, and on the
zero-valued message, is Go's nil slice, so the returned value is a null
value. -/
theorem GetList_uninitialized_is_null :
    (GetList (none : Option (SubscriptionList Unit))).map (fun r => r.1.isNil) = Except.ok true ∧
    (GetList (some (SubscriptionList.zero Unit))).map (fun r => r.1.isNil) = Except.ok true :=
  ⟨rfl, rfl⟩

/-- C3: for every message `x`, whatever it holds, and either value of
`UnsafeEnabled`, `Reset` does not fail and leaves the zero value in the data
fields: `List` is the zero value's (`GetList` then returns a sequence of length
0), `sizeCache` is 0 and `unknownFields` is empty. The `state` field, the
runtime's bookkeeping, is the zero state, re-linked to the message info when
`UnsafeEnabled` holds. A second `Reset` gives the same message again. -/
theorem Reset_restores_zero_value {Sub : Type} (UnsafeEnabled : Bool) (x : SubscriptionList Sub) :
    ∃ y, Reset UnsafeEnabled (some x) = Except.ok y ∧
      y.List = (SubscriptionList.zero Sub).List ∧
      y.sizeCache = (SubscriptionList.zero Sub).sizeCache ∧
      y.unknownFields = (SubscriptionList.zero Sub).unknownFields ∧
      y.List.len = 0 ∧ y.sizeCache = 0 ∧ y.unknownFields.len = 0 ∧
      (GetList (some y)).map (fun r => r.1.len) = Except.ok 0 ∧
      y.state = (if UnsafeEnabled then
          (SubscriptionList.zero Sub).state.StoreMessageInfo { index := 0 }
        else (SubscriptionList.zero Sub).state) ∧
      Reset UnsafeEnabled (some y) = Except.ok y := by
  cases UnsafeEnabled
  · exact ⟨SubscriptionList.zero Sub, rfl, rfl, rfl, rfl, rfl, rfl, rfl, rfl, rfl, rfl⟩
  · exact ⟨_, rfl, rfl, rfl, rfl, rfl, rfl, rfl, rfl, rfl, rfl⟩

/-! ## Theorems: the raw descriptor -/

set_option maxRecDepth 100000 in
/-- C4: `Descriptor` returns the index path `[0]` for every receiver, nil
included, in every state; the message that this path points at in the embedded
raw descriptor has the qualified name
`wso2.discovery.subscription.SubscriptionList`, made of the package
`wso2.discovery.subscription` and the message name `SubscriptionList`; and
entry 0 of the Go type table is `SubscriptionList`. -/
theorem Descriptor_identifies_SubscriptionList {Sub : Type} (rt : Runtime)
    (x : Option (SubscriptionList Sub)) (g : Globals) :
    (Descriptor rt x g).1.2 = [0] ∧
    qualifiedNameAt Globals.initial.file_wso2_discovery_subscription_subscription_list_proto_rawDesc
        (Descriptor rt x g).1.2 = some "wso2.discovery.subscription.SubscriptionList" ∧
    (parseFileDescriptorProto rawDescBytes).map (fun fd => fd.package) =
      some (some "wso2.discovery.subscription") ∧
    (parseFileDescriptorProto rawDescBytes).map (fun fd => (messageAt fd [0]).map fun m => m.name) =
      some (some (some "SubscriptionList")) ∧
    fullName "wso2.discovery.subscription" "SubscriptionList" =
      "wso2.discovery.subscription.SubscriptionList" ∧
    goTypeAt Globals.initial.file_wso2_discovery_subscription_subscription_list_proto_goTypes 0 =
      some GoType.SubscriptionList := by
  refine ⟨rfl, ?_, ?_, ?_, ?_, ?_⟩
  · show qualifiedNameAt (Slice.mk rawDescBytes) [0] = _
    decide
  · decide
  · decide
  · decide
  · decide

set_option maxRecDepth 100000 in
/-- C5: the message `SubscriptionList` of the raw descriptor has exactly one
field: name `list`, number 2, label repeated, type message, type name
`.wso2.discovery.subscription.Subscription`. The struct tag of the Go field
`List` declares the same layout: wire word `bytes`, number 2, `rep`, name
`list`. Both give the wire key of a list element as field number 2 with the
length-delimited wire type, which is the single key byte 18; a field written
with that key is read back as field 2, length-delimited. -/
theorem list_field_layout :
    (parseFileDescriptorProto rawDescBytes).map
        (fun fd => fd.message_type.map fun m => (m.name, m.field)) =
      some [(some "SubscriptionList",
        [{ name := some "list", number := some 2, label := some LABEL_REPEATED,
           type := some TYPE_MESSAGE,
           type_name := some ".wso2.discovery.subscription.Subscription",
           json_name := some "list", other := [] }])] ∧
    parseFieldTag SubscriptionList.List_protobufTag =
      { wire := some "bytes", number := some 2, cardinality := some "rep", name := some "list",
        proto3 := true, other := [] } ∧
    tagWireKey SubscriptionList.List_protobufTag = some (wireKey 2 WIRE_LENGTH_DELIMITED) ∧
    (parseFileDescriptorProto rawDescBytes).map
        (fun fd => fd.message_type.map fun m => m.field.map descriptorWireKey) =
      some [[some (wireKey 2 WIRE_LENGTH_DELIMITED)]] ∧
    listFieldNumber = 2 ∧
    encodeVarint (wireKey listFieldNumber WIRE_LENGTH_DELIMITED) = [18] ∧
    (∀ p rest : List Nat,
      parseEntry (encodeEntry { num := listFieldNumber, val := WireValue.bytes p } ++ rest) =
        some ({ num := 2, val := WireValue.bytes p }, rest)) := by
  refine ⟨by decide, by decide, by decide, by decide, rfl, by decide, ?_⟩
  intro p rest
  exact parseEntry_encodeEntry_bytes 2 (by decide) p rest

set_option maxRecDepth 100000 in
/-- C10: the embedded raw descriptor is a well-formed wire-format message.
It parses as a file descriptor to its last byte, nested messages included;
at the top level, in the messages (field 4), in the options (field 8) and in
the field descriptors inside the messages (field 2 of field 4), writing the
parsed fields out again gives back the same bytes, so every length prefix
matches its payload; no field is left uninterpreted. The parsed descriptor
holds 1 message, 0 enums, 0 extensions and 0 services: the counts `NumMessages
= 1`, `NumEnums = 0`, `NumExtensions = 0`, `NumServices = 0` of the type
builder, which is handed these very bytes, and the length 1 of the message-info
table. -/
theorem rawDesc_well_formed (rt : Runtime) :
    (parseFileDescriptorProto rawDescBytes).isSome = true ∧
    rawDescBytes.length = 378 ∧
    reencodes rawDescBytes = true ∧
    (nestedPayloads [4, 8] rawDescBytes).length = 2 ∧
    (nestedPayloads [4, 8] rawDescBytes).all reencodes = true ∧
    ((nestedPayloads [4] rawDescBytes).map (nestedPayloads [2])).flatten.all reencodes = true ∧
    (parseFileDescriptorProto rawDescBytes).map
        (fun fd => (fd.message_type.length, fd.enum_type.length, fd.extension.length,
          fd.service.length, fd.other)) = some (1, 0, 0, 0, []) ∧
    (typeBuilder rt Globals.initial).File.RawDescriptor = Slice.mk rawDescBytes ∧
    (typeBuilder rt Globals.initial).File.NumMessages = 1 ∧
    (typeBuilder rt Globals.initial).File.NumEnums = 0 ∧
    (typeBuilder rt Globals.initial).File.NumExtensions = 0 ∧
    (typeBuilder rt Globals.initial).File.NumServices = 0 ∧
    (typeBuilder rt Globals.initial).MessageInfos.toList.length = 1 ∧
    Globals.initial.file_wso2_discovery_subscription_subscription_list_proto_msgTypes.toList.length
      = 1 := by
  refine ⟨by decide, by decide, by decide, by decide, by decide, by decide, by decide,
    rfl, rfl, rfl, rfl, rfl, rfl, rfl⟩

/-! ## Theorems: registration -/

/-- C6: when the file descriptor is already set, the init function returns at
once and leaves every variable, and the trace of outside calls, as it was; so
from every state, running it twice gives the state that running it once
gives: nothing is registered or recorded a second time. -/
theorem init_idempotent (rt : Runtime) (g : Globals) :
    (g.File_wso2_discovery_subscription_subscription_list_proto.isSome = true →
      file_wso2_discovery_subscription_subscription_list_proto_init rt g = g) ∧
    file_wso2_discovery_subscription_subscription_list_proto_init rt
        (file_wso2_discovery_subscription_subscription_list_proto_init rt g) =
      file_wso2_discovery_subscription_subscription_list_proto_init rt g ∧
    (file_wso2_discovery_subscription_subscription_list_proto_init rt
        g).File_wso2_discovery_subscription_subscription_list_proto.isSome = true := by
  have hnoop : ∀ g1 : Globals,
      g1.File_wso2_discovery_subscription_subscription_list_proto.isSome = true →
      file_wso2_discovery_subscription_subscription_list_proto_init rt g1 = g1 := by
    intro g1 h
    simp [file_wso2_discovery_subscription_subscription_list_proto_init, h]
  have hset : (file_wso2_discovery_subscription_subscription_list_proto_init rt
      g).File_wso2_discovery_subscription_subscription_list_proto.isSome = true := by
    by_cases h : g.File_wso2_discovery_subscription_subscription_list_proto.isSome = true
    · rw [hnoop g h]; exact h
    · simp [file_wso2_discovery_subscription_subscription_list_proto_init, h]
  exact ⟨hnoop g, hnoop _ hset, hset⟩

/-- C6 at a concrete state: after the first registration from the initial
state the descriptor is set, and a second run changes nothing. -/
theorem init_idempotent_witness :
    (file_wso2_discovery_subscription_subscription_list_proto_init Runtime.sample
        Globals.initial).File_wso2_discovery_subscription_subscription_list_proto.isSome = true ∧
    file_wso2_discovery_subscription_subscription_list_proto_init Runtime.sample
        (file_wso2_discovery_subscription_subscription_list_proto_init Runtime.sample
          Globals.initial) =
      file_wso2_discovery_subscription_subscription_list_proto_init Runtime.sample
        Globals.initial :=
  ⟨rfl, (init_idempotent Runtime.sample
    (file_wso2_discovery_subscription_subscription_list_proto_init Runtime.sample
      Globals.initial)).1 rfl⟩

set_option maxRecDepth 100000 in
/-- C7: whenever the init function registers (the file descriptor is not yet
set), it calls the init function of `subscription.proto` and only then the
type builder, which gets the Go type table, the dependency table and the raw
descriptor as they stand, and whose file descriptor is stored. In the tables
as declared, the field type-name sub-list `[0:1]` holds the one entry 1, which
is `Subscription` in the Go type table, entry 0 being `SubscriptionList`; the
four other sub-lists are empty; and the raw descriptor imports
`wso2/discovery/subscription/subscription.proto`. -/
theorem init_registers_dependency_first (rt : Runtime) (g : Globals)
    (h : g.File_wso2_discovery_subscription_subscription_list_proto = none) :
    (∃ tb : TypeBuilder,
      (file_wso2_discovery_subscription_subscription_list_proto_init rt g).trace =
        g.trace ++ [Event.subscription_proto_init, Event.Build tb] ∧
      (file_wso2_discovery_subscription_subscription_list_proto_init rt
          g).File_wso2_discovery_subscription_subscription_list_proto = some (rt.Build tb).File ∧
      tb.GoTypes = g.file_wso2_discovery_subscription_subscription_list_proto_goTypes ∧
      tb.DependencyIndexes = g.file_wso2_discovery_subscription_subscription_list_proto_depIdxs ∧
      tb.File.RawDescriptor =
        g.file_wso2_discovery_subscription_subscription_list_proto_rawDesc) ∧
    depSubList Globals.initial.file_wso2_discovery_subscription_subscription_list_proto_depIdxs
      DepList.fieldTypeName = some [1] ∧
    goTypeAt Globals.initial.file_wso2_discovery_subscription_subscription_list_proto_goTypes 1 =
      some GoType.Subscription ∧
    goTypeAt Globals.initial.file_wso2_discovery_subscription_subscription_list_proto_goTypes 0 =
      some GoType.SubscriptionList ∧
    depSubList Globals.initial.file_wso2_discovery_subscription_subscription_list_proto_depIdxs
      DepList.extensionExtendee = some [] ∧
    depSubList Globals.initial.file_wso2_discovery_subscription_subscription_list_proto_depIdxs
      DepList.extensionTypeName = some [] ∧
    depSubList Globals.initial.file_wso2_discovery_subscription_subscription_list_proto_depIdxs
      DepList.methodInputType = some [] ∧
    depSubList Globals.initial.file_wso2_discovery_subscription_subscription_list_proto_depIdxs
      DepList.methodOutputType = some [] ∧
    (parseFileDescriptorProto rawDescBytes).map (fun fd => fd.dependency) =
      some ["wso2/discovery/subscription/subscription.proto"] := by
  refine ⟨?_, by decide, by decide, by decide, by decide, by decide, by decide, by decide,
    by decide⟩
  refine ⟨typeBuilder rt (setExporter rt { g with trace := g.trace ++ [Event.subscription_proto_init] }),
    ?_, ?_, ?_, ?_, ?_⟩
  · cases hu : rt.UnsafeEnabled <;>
      simp [file_wso2_discovery_subscription_subscription_list_proto_init, h, setExporter, hu]
  · simp [file_wso2_discovery_subscription_subscription_list_proto_init, h]
  · cases hu : rt.UnsafeEnabled <;> simp [typeBuilder, setExporter, hu]
  · cases hu : rt.UnsafeEnabled <;> simp [typeBuilder, setExporter, hu]
  · cases hu : rt.UnsafeEnabled <;> simp [typeBuilder, setExporter, hu]

/-- C7 at the initial state, where the file descriptor is not set. -/
theorem init_registers_dependency_first_witness :
    Globals.initial.File_wso2_discovery_subscription_subscription_list_proto = none ∧
    ∃ tb : TypeBuilder,
      (file_wso2_discovery_subscription_subscription_list_proto_init Runtime.sample
          Globals.initial).trace = [Event.subscription_proto_init, Event.Build tb] ∧
      tb.GoTypes = Slice.mk [GoType.SubscriptionList, GoType.Subscription] ∧
      tb.DependencyIndexes = Slice.mk [1, 1, 1, 1, 1, 0] :=
  ⟨rfl, (init_registers_dependency_first Runtime.sample Globals.initial rfl).1.elim
    fun tb htb => ⟨tb, htb.1, htb.2.2.1, htb.2.2.2.1⟩⟩

/-- C8, as the code has it: start from the variables as declared and make any
sequence of calls to the accessor (directly or through `Descriptor`) and to the
init function, in any order. Every call that reaches the accessor returns the
same bytes: what the runtime's `CompressGZIP` makes of the descriptor bytes as
declared. As soon as one such call has been made, `CompressGZIP` has run exactly
once, on those bytes, and its result is what `rawDescData` holds; before the
first such call it has not run at all. Calls of the init function, which sets
`rawDesc` to nil, do not change any of this, wherever they fall. -/
theorem rawDescGZIP_compresses_once (rt : Runtime) (cs : List Call) :
    (∀ b ∈ (runCalls rt cs Globals.initial).1, b = rt.CompressGZIP (Slice.mk rawDescBytes)) ∧
    (runCalls rt cs Globals.initial).1.length = cs.countP Call.isAccess ∧
    gzipInputs (runCalls rt cs Globals.initial).2.trace =
      (if cs.any Call.isAccess then [Slice.mk rawDescBytes] else []) ∧
    (runCalls rt cs
        Globals.initial).2.file_wso2_discovery_subscription_subscription_list_proto_rawDescData =
      (if cs.any Call.isAccess then rt.CompressGZIP (Slice.mk rawDescBytes)
        else Slice.mk rawDescBytes) := by
  have h0 : CacheEmpty Globals.initial := ⟨rfl, rfl, rfl⟩
  obtain ⟨a, b, d⟩ := runCalls_CacheEmpty rt cs Globals.initial h0
  refine ⟨a, b, ?_, ?_⟩
  · by_cases hc : cs.any Call.isAccess = true
    · rw [if_pos hc] at d ⊢; exact d.2.2
    · rw [if_neg hc] at d ⊢; exact d.2.2
  · by_cases hc : cs.any Call.isAccess = true
    · rw [if_pos hc] at d ⊢; exact d.2.1
    · rw [if_neg hc] at d ⊢; exact d.2.1

set_option maxRecDepth 100000 in
/-- C8 as stated fails: the one byte transformation that the first access runs
is the runtime's `CompressGZIP`, a compression, not a decompression. Its input
is the descriptor as declared, which is stored uncompressed: it parses as a
file descriptor and does not start with the two identification bytes of a gzip
stream. What the accessor returns is the output of the compression (with the
sample runtime, the input behind those two bytes), and it is returned again
after the init function has set `rawDesc` to nil. -/
theorem rawDescGZIP_is_a_compression :
    gzipInputs (file_wso2_discovery_subscription_subscription_list_proto_rawDescGZIP
      Runtime.sample Globals.initial).2.trace = [Slice.mk rawDescBytes] ∧
    hasGzipHeader rawDescBytes = false ∧
    (parseFileDescriptorProto rawDescBytes).isSome = true ∧
    (file_wso2_discovery_subscription_subscription_list_proto_rawDescGZIP
      Runtime.sample Globals.initial).1 = Slice.mk (31 :: 139 :: rawDescBytes) ∧
    (runCalls Runtime.sample [Call.rawDescGZIP, Call.init, Call.Descriptor] Globals.initial).1 =
      [Slice.mk (31 :: 139 :: rawDescBytes), Slice.mk (31 :: 139 :: rawDescBytes)] ∧
    (runCalls Runtime.sample [Call.rawDescGZIP, Call.init, Call.Descriptor]
      Globals.initial).2.file_wso2_discovery_subscription_subscription_list_proto_rawDesc =
      Slice.nil :=
  ⟨rfl, by decide, by decide, rfl, rfl, rfl⟩

/-! ## Theorems: encoding and decoding -/

/-- C9: let `encSub` and `decSub` be an encoding of `Subscription` and its
decoding (decoding an encoded value gives the value back; encodings are
bytes). For every sequence `vs` of Subscription values, the empty one
included, and every message `x` whose `List` holds these values in this order
and which has no unknown fields: encoding `x` succeeds, it writes each element
in order as a length-delimited field number 2, and decoding the result
succeeds with a message whose `List` has the same length and the same elements
in the same order as that of `x`, and no unknown fields. -/
theorem Marshal_Unmarshal_roundtrip {Sub : Type} (encSub : Sub → List Nat)
    (decSub : List Nat → Option Sub) (hdec : ∀ s, decSub (encSub s) = some s)
    (hbyte : ∀ s, ∀ b ∈ encSub s, b < 256) (vs : List Sub) (x : SubscriptionList Sub)
    (hl : x.List.toList = vs.map some) (hu : x.unknownFields.toList = []) :
    ∃ bs y, Marshal encSub x = Except.ok bs ∧
      bs = encodeEntries (vs.map (listEntry encSub)) ∧
      Unmarshal decSub bs = Except.ok y ∧
      y.List.toList = x.List.toList ∧
      y.List.len = x.List.len ∧
      y.List.toList = vs.map some ∧
      y.unknownFields.toList = x.unknownFields.toList := by
  have hall : (encodeEntries (vs.map (listEntry encSub))).all (fun b => decide (b < 256)) = true := by
    rw [List.all_eq_true]
    intro b hb
    exact decide_eq_true (encodeEntries_listEntry_bytes encSub hbyte vs b hb)
  have hun := unmarshalFields_encodeEntries encSub decSub hdec vs _ (SubscriptionList.zero Sub)
    (Nat.le_refl _)
  obtain ⟨f1, f2, _, _⟩ := foldl_appendElement vs (SubscriptionList.zero Sub)
  have f1' : (vs.foldl appendElement (SubscriptionList.zero Sub)).List.toList = vs.map some := by
    rw [f1]; rfl
  refine ⟨encodeEntries (vs.map (listEntry encSub)), vs.foldl appendElement (SubscriptionList.zero Sub),
    ?_, rfl, ?_, ?_, ?_, f1', ?_⟩
  · simp [Marshal, hl, hu, encodeList_valid]
  · simp [Unmarshal, hall, hun]
  · rw [f1', hl]
  · simp only [Slice.len, f1', hl]
  · rw [f2, hu]; rfl

/-- C9 at a concrete input: two elements with the distinct identifiers 1 and
2. The encoding is the eight bytes shown, two fields with key 18, and decoding
gives a list of length 2 with the identifiers in insertion order. -/
theorem Marshal_Unmarshal_roundtrip_witness :
    Marshal SampleSub.encode
        { SubscriptionList.zero SampleSub with
          List := Slice.mk [some { id := 1 }, some { id := 2 }] } =
      Except.ok [18, 2, 8, 1, 18, 2, 8, 2] ∧
    (Unmarshal SampleSub.decode [18, 2, 8, 1, 18, 2, 8, 2]).map (fun y => y.List) =
      Except.ok (Slice.mk [some { id := 1 }, some { id := 2 }]) ∧
    ∃ bs y, Marshal SampleSub.encode
        { SubscriptionList.zero SampleSub with
          List := Slice.mk [some { id := 1 }, some { id := 2 }] } = Except.ok bs ∧
      bs = encodeEntries ([{ id := 1 }, { id := 2 }].map (listEntry SampleSub.encode)) ∧
      Unmarshal SampleSub.decode bs = Except.ok y ∧
      y.List.toList = [some { id := 1 }, some { id := 2 }] ∧
      y.List.len = 2 ∧
      y.List.toList = [some { id := 1 }, some { id := 2 }] ∧
      y.unknownFields.toList = [] :=
  ⟨rfl, rfl,
    Marshal_Unmarshal_roundtrip SampleSub.encode SampleSub.decode SampleSub.decode_encode
      SampleSub.encode_bytes [{ id := 1 }, { id := 2 }]
      { SubscriptionList.zero SampleSub with
        List := Slice.mk [some { id := 1 }, some { id := 2 }] } rfl rfl⟩

end subscription
